import Mathlib

/-!
Shallow embedding of `cmd/up.go` from the `dev` tool.

The file under verification is sequential glue over three external
collaborators (container runtime, compose-file parser, registry client).
Following the spec, those collaborators are out of scope and are modelled
as an abstract environment `Env` of call-time responses.  Each Go function
becomes a Lean function returning the ordered trace of external calls it
issued (`List Event`) together with its result; `log.Fatal` (process
abort) is modelled by an `Option`/`Bool` component: `none` / `false` means
the run aborted at that point, and the trace holds the calls made up to
the abort.

Go maps are modelled as association lists (one fixed iteration order; none
of the verified properties depends on the order in which Go enumerates a
map's keys, only on the per-key content and on per-stage ordering).
-/

namespace DevUp

/-- Modelled from the spec: docker network-creation options ("driver,
subnet, etc.") live in the external `docker` package; their structure is
never inspected by `up.go`, so they are an opaque token here. -/
abbrev NetworkOpts := String

/-- Modelled from the spec: a registry declaration from configuration
(URL, name, credential, continue-on-failure flag); the `config` package is
not part of the source under verification. -/
structure Registry where
  url : String
  name : String
  password : String
  continueOnFailure : Bool
deriving DecidableEq

/-- Modelled from the spec: per-project metadata (name, directory, list of
compose-file paths). -/
structure Project where
  name : String
  directory : String
  dockerComposeFilenames : List String
deriving DecidableEq

/-- Modelled from the spec: the static tool configuration: declared
networks (name, creation options), registries, image-name pfx.  Go's
`map[string]` of networks becomes an association list. -/
structure Dev where
  networks : List (String × NetworkOpts)
  registries : List Registry
  imagePfx : String

/-- A compose service: its name and the networks it references (Go: the
key set of `service.Networks`, modelled as a list). -/
structure Service where
  name : String
  networks : List String
deriving DecidableEq

/-- Result of parsing one compose file: its list of services. -/
structure ComposeConfig where
  services : List Service
deriving DecidableEq

/-- The external collaborators, modelled as the responses the outside
world gives at call time.  `networkIDFromName` answers the existence
query (`Except.ok ""` means the network is absent, per the Go contract);
`networkCreate` returns the fresh identifier and an optional error;
`registryLogin` returns `some errMsg` on failure; `composeParse` parses a
file of a directory; `removeContainerIfRequired` returns `some errMsg` on
failure. -/
structure Env where
  networkIDFromName : String → Except String String
  networkCreate : String → NetworkOpts → String × Option String
  registryLogin : String → String → String → Option String
  composeParse : String → String → Except String ComposeConfig
  removeContainerIfRequired : String → String → List String → Option String

/-- One external call issued by the program, in order of issue. -/
inductive Event where
  | loginAttempt (url name : String)
  | existQuery (name : String)
  | createCall (name : String) (opts : NetworkOpts)
  | parseCall (dir file : String)
  | removeCall (network networkID : String) (services : List String)
  | composeRun (pfx sub : String) (files : List String) (args : List String)
deriving DecidableEq

/-- Association-list lookup, the model of Go's `m[k]` presence test and
read (`none` models `ok == false`). -/
def alistLookup {α : Type} : List (String × α) → String → Option α
  | [], _ => none
  | (k, v) :: rest, key => if k = key then some v else alistLookup rest key

/-- Loop body of `networksCreate`: for each declared network, query its
id by name; on query error abort; if the id is empty, create the network
(aborting on creation error) and record the fresh id; otherwise record
the existing id. -/
def networksCreateLoop (env : Env) :
    List (String × NetworkOpts) → List Event × Option (List (String × String))
  | [] => ([], some [])
  | (name, opts) :: rest =>
    match env.networkIDFromName name with
    | Except.error _ => ([Event.existQuery name], none)
    | Except.ok networkID =>
      if networkID = "" then
        match env.networkCreate name opts with
        | (_, some _) => ([Event.existQuery name, Event.createCall name opts], none)
        | (newID, none) =>
          let r := networksCreateLoop env rest
          (Event.existQuery name :: Event.createCall name opts :: r.1,
           r.2.map (fun m => (name, newID) :: m))
      else
        let r := networksCreateLoop env rest
        (Event.existQuery name :: r.1, r.2.map (fun m => (name, networkID) :: m))

/-- `networksCreate` from `up.go`: ensures every declared external
network exists and returns the name-to-id map (`none` models
`log.Fatal`). -/
def networksCreate (env : Env) (appConfig : Dev) :
    List Event × Option (List (String × String)) :=
  networksCreateLoop env appConfig.networks

/-- Loop body of `registriesLogin`: attempt each login; on failure warn
and continue when `continueOnFailure` is set, otherwise abort
(`log.Fatal`, modelled as the `false` flag). -/
def registriesLoginLoop (env : Env) : List Registry → List Event × Bool
  | [] => ([], true)
  | r :: rest =>
    match env.registryLogin r.url r.name r.password with
    | some _ =>
      if r.continueOnFailure then
        let t := registriesLoginLoop env rest
        (Event.loginAttempt r.url r.name :: t.1, t.2)
      else
        ([Event.loginAttempt r.url r.name], false)
    | none =>
      let t := registriesLoginLoop env rest
      (Event.loginAttempt r.url r.name :: t.1, t.2)

/-- `registriesLogin` from `up.go`. -/
def registriesLogin (env : Env) (appConfig : Dev) : List Event × Bool :=
  registriesLoginLoop env appConfig.registries

/-- Go's `serviceNetworkMap[name] = append(serviceNetworkMap[name], svc)`:
append `svc` to the list stored under `key`, creating the entry when the
key is absent. -/
def appendAssoc (m : List (String × List String)) (key svc : String) :
    List (String × List String) :=
  match m with
  | [] => [(key, [svc])]
  | (k, vs) :: rest =>
    if k = key then (k, vs ++ [svc]) :: rest else (k, vs) :: appendAssoc rest key svc

/-- Inner loop of `createNetworkServiceMap`: for each network a service
references, record the service under that network iff the network is a
key of `networkIDMap`. -/
def addServiceNetworks (networkIDMap : List (String × String)) (svcName : String)
    (m : List (String × List String)) : List String → List (String × List String)
  | [] => m
  | n :: ns =>
    if (alistLookup networkIDMap n).isSome then
      addServiceNetworks networkIDMap svcName (appendAssoc m n svcName) ns
    else
      addServiceNetworks networkIDMap svcName m ns

/-- Middle loop of `createNetworkServiceMap`: fold over the services of
one parsed compose file. -/
def addServices (networkIDMap : List (String × String))
    (m : List (String × List String)) : List Service → List (String × List String)
  | [] => m
  | s :: ss => addServices networkIDMap (addServiceNetworks networkIDMap s.name m s.networks) ss

/-- Outer loop of `createNetworkServiceMap`: parse each compose file
(aborting on parse error) and accumulate the service-network map. -/
def createNetworkServiceMapLoop (env : Env) (dir : String)
    (networkIDMap : List (String × String)) (m : List (String × List String)) :
    List String → List Event × Option (List (String × List String))
  | [] => ([], some m)
  | f :: fs =>
    match env.composeParse dir f with
    | Except.error _ => ([Event.parseCall dir f], none)
    | Except.ok composeConfig =>
      let r := createNetworkServiceMapLoop env dir networkIDMap
                 (addServices networkIDMap m composeConfig.services) fs
      (Event.parseCall dir f :: r.1, r.2)

/-- `createNetworkServiceMap` from `up.go`: mapping from each configured
network to the list of services of the project's compose files that use
it. -/
def createNetworkServiceMap (env : Env) (project : Project)
    (networkIDMap : List (String × String)) :
    List Event × Option (List (String × List String)) :=
  createNetworkServiceMapLoop env project.directory networkIDMap []
    project.dockerComposeFilenames

/-- The removal loop of `verifyContainerConfig`: for each entry of the
service-network map, instruct the runtime to remove stale containers;
any failure is fatal. -/
def removeLoop (env : Env) (networkIDMap : List (String × String)) :
    List (String × List String) → List Event × Bool
  | [] => ([], true)
  | (networkName, services) :: rest =>
    let networkID := (alistLookup networkIDMap networkName).getD ""
    match env.removeContainerIfRequired networkName networkID services with
    | some _ => ([Event.removeCall networkName networkID services], false)
    | none =>
      let t := removeLoop env networkIDMap rest
      (Event.removeCall networkName networkID services :: t.1, t.2)

/-- `verifyContainerConfig` from `up.go`: no-op when `networkIDMap` is
empty; otherwise build the service-network map and issue one removal
instruction per entry. -/
def verifyContainerConfig (env : Env) (project : Project)
    (networkIDMap : List (String × String)) : List Event × Bool :=
  if networkIDMap.isEmpty then ([], true)
  else
    let r := createNetworkServiceMap env project networkIDMap
    match r.2 with
    | none => (r.1, false)
    | some m =>
      let t := removeLoop env networkIDMap m
      (r.1 ++ t.1, t.2)

/-- Modelled from the spec: `runDockerCompose` (repo code outside the
verified file) shells out to the compose orchestrator with the given
image-name pfx, subcommand, compose files and extra arguments; here it
is the emitted delegation event. -/
def runDockerCompose (pfx sub : String) (files : List String)
    (args : List String) : Event :=
  Event.composeRun pfx sub files args

/-- `Up` from `up.go`: registry login, network ensure, container
reconciliation, compose up, optional log tail; a fatal stage halts the
sequence. -/
def Up (env : Env) (appConfig : Dev) (project : Project) (tailLogs : Bool) :
    List Event × Bool :=
  let l := registriesLogin env appConfig
  if l.2 = false then (l.1, false)
  else
    let n := networksCreate env appConfig
    match n.2 with
    | none => (l.1 ++ n.1, false)
    | some networkIDMap =>
      let v := verifyContainerConfig env project networkIDMap
      if v.2 = false then (l.1 ++ n.1 ++ v.1, false)
      else
        let base := l.1 ++ n.1 ++ v.1 ++
          [runDockerCompose appConfig.imagePfx "up" project.dockerComposeFilenames ["-d"]]
        if tailLogs then
          (base ++ [runDockerCompose appConfig.imagePfx "logs"
                      project.dockerComposeFilenames ["-f", project.name]], true)
        else (base, true)

/-- Is the event a registry login attempt? -/
def Event.isLogin : Event → Bool
  | Event.loginAttempt _ _ => true
  | _ => false

/-- Is the event a network-manager operation (existence query or
creation)? -/
def Event.isNetworkOp : Event → Bool
  | Event.existQuery _ => true
  | Event.createCall _ _ => true
  | _ => false

/-- Is the event part of stale-container reconciliation (compose parse or
container removal)? -/
def Event.isReconcileOp : Event → Bool
  | Event.parseCall _ _ => true
  | Event.removeCall _ _ _ => true
  | _ => false

/-- Is the event a container-removal instruction? -/
def Event.isRemove : Event → Bool
  | Event.removeCall _ _ _ => true
  | _ => false

/-- Is the event a login attempt at the given registry? -/
def isLoginFor (url name : String) : Event → Bool
  | Event.loginAttempt u n => u == url && n == name
  | _ => false

/-- Is the event an existence query for the given network name? -/
def isQueryFor (name : String) : Event → Bool
  | Event.existQuery n => n == name
  | _ => false

/-- Is the event a creation call for the given network name? -/
def isCreateFor (name : String) : Event → Bool
  | Event.createCall n _ => n == name
  | _ => false

/-- Is the event a parse of the given compose file of the given
directory? -/
def isParseFor (dir file : String) : Event → Bool
  | Event.parseCall d f => d == dir && f == file
  | _ => false

/-- Is the event a removal instruction for the given network name? -/
def isRemoveFor (name : String) : Event → Bool
  | Event.removeCall n _ _ => n == name
  | _ => false

/-! Concrete fixtures used by the witnesses: an environment where network
`"x"` already exists with id `"id1"`, every other network is absent and
is created as `name ++ "-new"`, logins succeed, every compose file parses
to services `A` (on network `"x"`) and `B` (on network `"y"`), and
removals succeed; plus a variant whose logins all fail. -/

/-- Witness fixture: service `A`, attached to network `"x"`. -/
def svcA : Service := { name := "A", networks := ["x"] }

/-- Witness fixture: service `B`, attached to network `"y"`. -/
def svcB : Service := { name := "B", networks := ["y"] }

/-- Witness fixture environment. -/
def envSpec : Env where
  networkIDFromName := fun n => if n = "x" then Except.ok "id1" else Except.ok ""
  networkCreate := fun n _ => (n ++ "-new", none)
  registryLogin := fun _ _ _ => none
  composeParse := fun _ _ => Except.ok { services := [svcA, svcB] }
  removeContainerIfRequired := fun _ _ _ => none

/-- Witness fixture environment whose logins all fail. -/
def envLoginFail : Env :=
  { envSpec with registryLogin := fun _ _ _ => some "denied" }

/-- Witness fixture project with a single compose file. -/
def projW : Project :=
  { name := "proj", directory := "/dir", dockerComposeFilenames := ["docker-compose.yml"] }

/-- Witness fixture project with two compose files (each parses to the
same services under `envSpec`). -/
def projDup : Project :=
  { name := "proj", directory := "/dir", dockerComposeFilenames := ["a.yml", "b.yml"] }

/-- Witness fixture registry that tolerates login failure. -/
def regTol : Registry :=
  { url := "u1", name := "r1", password := "p1", continueOnFailure := true }

/-- Witness fixture registry whose login failure is fatal. -/
def regFatal : Registry :=
  { url := "u2", name := "r2", password := "p2", continueOnFailure := false }

/-- Witness fixture configuration: one declared network `"x"` (present
under `envSpec`), one tolerant registry. -/
def cfgW : Dev :=
  { networks := [("x", "optsX")], registries := [regTol], imagePfx := "pfx" }

/-- Witness fixture configuration with one absent network `"z"`. -/
def cfgAbsent : Dev :=
  { networks := [("z", "optsZ")], registries := [], imagePfx := "pfx" }

/-- Witness fixture configuration whose only registry is non-tolerant. -/
def cfgFatalReg : Dev :=
  { networks := [("x", "optsX")], registries := [regFatal], imagePfx := "pfx" }

/-! Helper lemmas about the service-network map construction. -/

lemma appendAssoc_keys (m : List (String × List String)) (key svc : String) :
    (appendAssoc m key svc).map Prod.fst =
      if key ∈ m.map Prod.fst then m.map Prod.fst else m.map Prod.fst ++ [key] := by
  induction m with
  | nil => simp [appendAssoc]
  | cons p rest ih =>
    obtain ⟨k, vs⟩ := p
    by_cases hk : k = key
    · subst hk
      simp [appendAssoc]
    · by_cases hmem : key ∈ rest.map Prod.fst <;>
        simp [appendAssoc, hk, ih, hmem, Ne.symm hk]

lemma mem_keys_appendAssoc {m : List (String × List String)} {key svc k : String}
    (h : k ∈ (appendAssoc m key svc).map Prod.fst) : k ∈ m.map Prod.fst ∨ k = key := by
  rw [appendAssoc_keys] at h
  by_cases hmem : key ∈ m.map Prod.fst
  · rw [if_pos hmem] at h
    exact Or.inl h
  · rw [if_neg hmem] at h
    rcases List.mem_append.mp h with h' | h'
    · exact Or.inl h'
    · exact Or.inr (List.mem_singleton.mp h')

lemma keys_nodup_appendAssoc {m : List (String × List String)} {key svc : String}
    (h : (m.map Prod.fst).Nodup) : ((appendAssoc m key svc).map Prod.fst).Nodup := by
  rw [appendAssoc_keys]
  by_cases hmem : key ∈ m.map Prod.fst
  · rw [if_pos hmem]
    exact h
  · rw [if_neg hmem]
    simp [List.nodup_append, h, hmem]

lemma addServiceNetworks_keys_sub (idMap : List (String × String)) (svc : String) :
    ∀ (ns : List String) (m : List (String × List String)) (k : String),
      k ∈ (addServiceNetworks idMap svc m ns).map Prod.fst →
      k ∈ m.map Prod.fst ∨ (alistLookup idMap k).isSome = true := by
  intro ns
  induction ns with
  | nil => exact fun m k h => Or.inl h
  | cons n ns ih =>
    intro m k h
    simp only [addServiceNetworks] at h
    by_cases hn : (alistLookup idMap n).isSome = true
    · rw [if_pos hn] at h
      rcases ih _ _ h with h' | h'
      · rcases mem_keys_appendAssoc h' with h'' | rfl
        · exact Or.inl h''
        · exact Or.inr hn
      · exact Or.inr h'
    · rw [if_neg hn] at h
      exact ih _ _ h

lemma addServices_keys_sub (idMap : List (String × String)) :
    ∀ (ss : List Service) (m : List (String × List String)) (k : String),
      k ∈ (addServices idMap m ss).map Prod.fst →
      k ∈ m.map Prod.fst ∨ (alistLookup idMap k).isSome = true := by
  intro ss
  induction ss with
  | nil => exact fun m k h => Or.inl h
  | cons s ss ih =>
    intro m k h
    simp only [addServices] at h
    rcases ih _ _ h with h' | h'
    · exact addServiceNetworks_keys_sub idMap s.name s.networks m k h'
    · exact Or.inr h'

lemma cnsmLoop_keys_sub (env : Env) (dir : String) (idMap : List (String × String)) :
    ∀ (fs : List String) (m out : List (String × List String)),
      (createNetworkServiceMapLoop env dir idMap m fs).2 = some out →
      ∀ k ∈ out.map Prod.fst, k ∈ m.map Prod.fst ∨ (alistLookup idMap k).isSome = true := by
  intro fs
  induction fs with
  | nil =>
    intro m out h k hk
    simp only [createNetworkServiceMapLoop, Option.some.injEq] at h
    subst h
    exact Or.inl hk
  | cons f fs ih =>
    intro m out h k hk
    simp only [createNetworkServiceMapLoop] at h
    cases hp : env.composeParse dir f with
    | error e => rw [hp] at h; simp at h
    | ok composeConfig =>
      rw [hp] at h
      simp only at h
      rcases ih _ _ h k hk with h' | h'
      · exact addServices_keys_sub idMap _ _ k h'
      · exact Or.inr h'

lemma addServiceNetworks_keys_nodup (idMap : List (String × String)) (svc : String) :
    ∀ (ns : List String) (m : List (String × List String)),
      (m.map Prod.fst).Nodup → ((addServiceNetworks idMap svc m ns).map Prod.fst).Nodup := by
  intro ns
  induction ns with
  | nil => exact fun m h => h
  | cons n ns ih =>
    intro m h
    simp only [addServiceNetworks]
    by_cases hn : (alistLookup idMap n).isSome = true
    · rw [if_pos hn]
      exact ih _ (keys_nodup_appendAssoc h)
    · rw [if_neg hn]
      exact ih _ h

lemma addServices_keys_nodup (idMap : List (String × String)) :
    ∀ (ss : List Service) (m : List (String × List String)),
      (m.map Prod.fst).Nodup → ((addServices idMap m ss).map Prod.fst).Nodup := by
  intro ss
  induction ss with
  | nil => exact fun m h => h
  | cons s ss ih =>
    intro m h
    exact ih _ (addServiceNetworks_keys_nodup idMap s.name s.networks m h)

lemma cnsmLoop_keys_nodup (env : Env) (dir : String) (idMap : List (String × String)) :
    ∀ (fs : List String) (m out : List (String × List String)),
      (m.map Prod.fst).Nodup →
      (createNetworkServiceMapLoop env dir idMap m fs).2 = some out →
      (out.map Prod.fst).Nodup := by
  intro fs
  induction fs with
  | nil =>
    intro m out hnd h
    simp only [createNetworkServiceMapLoop, Option.some.injEq] at h
    subst h
    exact hnd
  | cons f fs ih =>
    intro m out hnd h
    simp only [createNetworkServiceMapLoop] at h
    cases hp : env.composeParse dir f with
    | error e => rw [hp] at h; simp at h
    | ok composeConfig =>
      rw [hp] at h
      simp only at h
      exact ih _ _ (addServices_keys_nodup idMap composeConfig.services m hnd) h

lemma cnsm_keys_nodup (env : Env) (project : Project) (idMap : List (String × String))
    (out : List (String × List String))
    (h : (createNetworkServiceMap env project idMap).2 = some out) :
    (out.map Prod.fst).Nodup :=
  cnsmLoop_keys_nodup env project.directory idMap project.dockerComposeFilenames [] out
    List.nodup_nil h

/-- C1: every key of the service-network map built by the reconciler is a
key of the network identity map (only declared networks appear). -/
theorem claim1_service_network_map_keys_declared (env : Env) (project : Project)
    (networkIDMap : List (String × String)) (out : List (String × List String))
    (h : (createNetworkServiceMap env project networkIDMap).2 = some out) :
    ∀ k ∈ out.map Prod.fst, (alistLookup networkIDMap k).isSome = true := by
  intro k hk
  rcases cnsmLoop_keys_sub env project.directory networkIDMap
      project.dockerComposeFilenames [] out h k hk with h' | h'
  · simp at h'
  · exact h'

/-- C1 witness: the spec's concrete instance — services `A` (on `"x"`)
and `B` (on `"y"`), declared networks `{"x"}` — yields exactly
`{"x": ["A"]}`, and its only key `"x"` is declared. -/
theorem claim1_witness :
    (createNetworkServiceMap envSpec projW [("x", "id1")]).2 = some [("x", ["A"])]
    ∧ ∀ k ∈ [("x", ["A"])].map (Prod.fst (α := String) (β := List String)),
        (alistLookup [("x", "id1")] k).isSome = true :=
  ⟨by decide,
   claim1_service_network_map_keys_declared envSpec projW [("x", "id1")] [("x", ["A"])]
     (by decide)⟩

/-- C5: with an empty network identity map, `verifyContainerConfig` is a
no-op — no parse, no removal, no abort. -/
theorem claim5_verify_noop_on_empty_map (env : Env) (project : Project) :
    verifyContainerConfig env project [] = ([], true) := rfl

lemma networksCreateLoop_keys (env : Env) :
    ∀ (ns : List (String × NetworkOpts)) (m : List (String × String)),
      (networksCreateLoop env ns).2 = some m → m.map Prod.fst = ns.map Prod.fst := by
  intro ns
  induction ns with
  | nil =>
    intro m h
    simp only [networksCreateLoop, Option.some.injEq] at h
    subst h
    rfl
  | cons p rest ih =>
    intro m h
    obtain ⟨name, opts⟩ := p
    simp only [networksCreateLoop] at h
    cases hq : env.networkIDFromName name with
    | error e => rw [hq] at h; simp at h
    | ok networkID =>
      rw [hq] at h
      simp only at h
      by_cases hempty : networkID = ""
      · rw [if_pos hempty] at h
        cases hc : env.networkCreate name opts with
        | mk newID errOpt =>
          rw [hc] at h
          cases errOpt with
          | some e => simp at h
          | none =>
            simp only [Option.map_eq_some'] at h
            obtain ⟨m', hm', rfl⟩ := h
            simp [ih m' hm']
      · rw [if_neg hempty] at h
        simp only [Option.map_eq_some'] at h
        obtain ⟨m', hm', rfl⟩ := h
        simp [ih m' hm']

/-- C4: on a successful run, the returned network identity map has
exactly the declared networks as keys, one entry per declaration, in
declaration order — no declared network is missing. -/
theorem claim4_identity_map_complete (env : Env) (appConfig : Dev)
    (m : List (String × String)) (h : (networksCreate env appConfig).2 = some m) :
    m.map Prod.fst = appConfig.networks.map Prod.fst :=
  networksCreateLoop_keys env appConfig.networks m h

/-- C4 witness: with one declared network `"x"` present remotely, the
returned map keys are exactly `["x"]`. -/
theorem claim4_witness :
    ([("x", "id1")].map (Prod.fst (α := String) (β := String)))
      = cfgW.networks.map Prod.fst :=
  claim4_identity_map_complete envSpec cfgW [("x", "id1")] (by decide)

lemma networksCreateLoop_no_create (env : Env) (name netID : String)
    (hq : env.networkIDFromName name = Except.ok netID) (hne : netID ≠ "") :
    ∀ (ns : List (String × NetworkOpts)) (opts : NetworkOpts),
      Event.createCall name opts ∉ (networksCreateLoop env ns).1 := by
  intro ns
  induction ns with
  | nil => simp [networksCreateLoop]
  | cons p rest ih =>
    intro opts
    obtain ⟨k, o⟩ := p
    simp only [networksCreateLoop]
    cases hk : env.networkIDFromName k with
    | error e => simp
    | ok nid =>
      simp only
      by_cases hempty : nid = ""
      · have hkn : k ≠ name := by
          rintro rfl
          rw [hq] at hk
          cases hk
          exact hne hempty
        rw [if_pos hempty]
        cases hc : env.networkCreate k o with
        | mk newID errOpt =>
          cases errOpt with
          | some e => simp [Ne.symm hkn]
          | none => simp [Ne.symm hkn, ih opts]
      · rw [if_neg hempty]
        simp [ih opts]

lemma networksCreateLoop_lookup_existing (env : Env) (name netID : String)
    (hq : env.networkIDFromName name = Except.ok netID) (hne : netID ≠ "") :
    ∀ (ns : List (String × NetworkOpts)) (m : List (String × String)),
      name ∈ ns.map Prod.fst → (networksCreateLoop env ns).2 = some m →
      alistLookup m name = some netID := by
  intro ns
  induction ns with
  | nil => simp
  | cons p rest ih =>
    intro m hmem hrun
    obtain ⟨k, o⟩ := p
    simp only [networksCreateLoop] at hrun
    by_cases hkn : k = name
    · subst hkn
      rw [hq] at hrun
      simp only at hrun
      rw [if_neg hne] at hrun
      simp only [Option.map_eq_some'] at hrun
      obtain ⟨m', hm', rfl⟩ := hrun
      simp [alistLookup]
    · have hmem' : name ∈ rest.map Prod.fst := by
        rcases List.mem_cons.mp hmem with h | h
        · exact absurd h.symm hkn
        · exact h
      cases hk : env.networkIDFromName k with
      | error e => rw [hk] at hrun; simp at hrun
      | ok nid =>
        rw [hk] at hrun
        simp only at hrun
        by_cases hempty : nid = ""
        · rw [if_pos hempty] at hrun
          cases hc : env.networkCreate k o with
          | mk newID errOpt =>
            rw [hc] at hrun
            cases errOpt with
            | some e => simp at hrun
            | none =>
              simp only [Option.map_eq_some'] at hrun
              obtain ⟨m', hm', rfl⟩ := hrun
              simp only [alistLookup, if_neg hkn]
              exact ih m' hmem' hm'
        · rw [if_neg hempty] at hrun
          simp only [Option.map_eq_some'] at hrun
          obtain ⟨m', hm', rfl⟩ := hrun
          simp only [alistLookup, if_neg hkn]
          exact ih m' hmem' hm'

/-- C2: a declared network whose existence query returns a non-empty
identifier is never created, and that identifier is recorded unchanged
in the returned map. -/
theorem claim2_existing_network_reused (env : Env) (appConfig : Dev)
    (name netID : String) (m : List (String × String))
    (hq : env.networkIDFromName name = Except.ok netID) (hne : netID ≠ "")
    (hdecl : name ∈ appConfig.networks.map Prod.fst)
    (hrun : (networksCreate env appConfig).2 = some m) :
    alistLookup m name = some netID
    ∧ ∀ opts, Event.createCall name opts ∉ (networksCreate env appConfig).1 :=
  ⟨networksCreateLoop_lookup_existing env name netID hq hne appConfig.networks m hdecl hrun,
   fun opts => networksCreateLoop_no_create env name netID hq hne appConfig.networks opts⟩

/-- C2 witness: network `"x"` exists remotely with id `"id1"`; the run
records `"id1"` and never issues a creation call for `"x"`. -/
theorem claim2_witness :
    alistLookup [("x", "id1")] "x" = some "id1"
    ∧ ∀ opts, Event.createCall "x" opts ∉ (networksCreate envSpec cfgW).1 :=
  claim2_existing_network_reused envSpec cfgW "x" "id1" [("x", "id1")]
    rfl (by decide) (by decide) (by decide)

lemma networksCreateLoop_countP_create_zero (env : Env) (name : String) :
    ∀ ns : List (String × NetworkOpts), name ∉ ns.map Prod.fst →
      List.countP (isCreateFor name) (networksCreateLoop env ns).1 = 0 := by
  intro ns
  induction ns with
  | nil => simp [networksCreateLoop]
  | cons p rest ih =>
    intro hmem
    obtain ⟨k, o⟩ := p
    have hk : k ≠ name := fun h => hmem (by simp [h])
    have hrest : name ∉ rest.map Prod.fst := fun h => hmem (by simp [h])
    simp only [networksCreateLoop]
    cases hq : env.networkIDFromName k with
    | error e => simp [isCreateFor]
    | ok nid =>
      simp only
      by_cases hempty : nid = ""
      · rw [if_pos hempty]
        cases hc : env.networkCreate k o with
        | mk newID errOpt =>
          cases errOpt with
          | some e => simp [isCreateFor, hk]
          | none => simp [isCreateFor, hk, ih hrest]
      · rw [if_neg hempty]
        simp [isCreateFor, ih hrest]

lemma networksCreateLoop_created (env : Env) (name : String) (opts0 : NetworkOpts)
    (newID : String)
    (hq : env.networkIDFromName name = Except.ok "")
    (hc : env.networkCreate name opts0 = (newID, none)) :
    ∀ (ns : List (String × NetworkOpts)) (m : List (String × String)),
      (name, opts0) ∈ ns → (ns.map Prod.fst).Nodup →
      (networksCreateLoop env ns).2 = some m →
      List.countP (isCreateFor name) (networksCreateLoop env ns).1 = 1
      ∧ Event.createCall name opts0 ∈ (networksCreateLoop env ns).1
      ∧ alistLookup m name = some newID := by
  intro ns
  induction ns with
  | nil => simp
  | cons p rest ih =>
    intro m hmem hnd hrun
    obtain ⟨k, o⟩ := p
    have hndk : k ∉ rest.map Prod.fst := by
      simp only [List.map_cons, List.nodup_cons] at hnd
      exact hnd.1
    have hndrest : (rest.map Prod.fst).Nodup := by
      simp only [List.map_cons, List.nodup_cons] at hnd
      exact hnd.2
    rcases List.mem_cons.mp hmem with heq | hmem' <;>
      simp only [networksCreateLoop] at hrun ⊢
    · obtain ⟨rfl, rfl⟩ : k = name ∧ o = opts0 := by
        have h1 := congrArg Prod.fst heq
        have h2 := congrArg Prod.snd heq
        exact ⟨h1.symm, h2.symm⟩
      rw [hq] at hrun ⊢
      simp only at hrun ⊢
      rw [if_pos trivial] at hrun ⊢
      rw [hc] at hrun ⊢
      simp only [Option.map_eq_some'] at hrun
      obtain ⟨m', hm', rfl⟩ := hrun
      refine ⟨?_, by simp, by simp [alistLookup]⟩
      simp [List.countP_cons, isCreateFor,
        networksCreateLoop_countP_create_zero env k rest hndk]
    · have hkn : k ≠ name := by
        intro h
        exact hndk (h ▸ List.mem_map_of_mem Prod.fst hmem')
      cases hkq : env.networkIDFromName k with
      | error e => rw [hkq] at hrun; simp at hrun
      | ok nid =>
        rw [hkq] at hrun
        simp only at hrun ⊢
        by_cases hempty : nid = ""
        · rw [if_pos hempty] at hrun ⊢
          cases hkc : env.networkCreate k o with
          | mk newID2 errOpt =>
            cases errOpt with
            | some e => rw [hkc] at hrun; simp at hrun
            | none =>
              rw [hkc] at hrun
              simp only [Option.map_eq_some'] at hrun
              obtain ⟨m', hm', rfl⟩ := hrun
              obtain ⟨hcount, hmemEv, hlook⟩ := ih m' hmem' hndrest hm'
              refine ⟨?_, by simp [hmemEv], by simp [alistLookup, if_neg hkn, hlook]⟩
              simp [isCreateFor, hkn, hcount]
        · rw [if_neg hempty] at hrun ⊢
          simp only [Option.map_eq_some'] at hrun
          obtain ⟨m', hm', rfl⟩ := hrun
          obtain ⟨hcount, hmemEv, hlook⟩ := ih m' hmem' hndrest hm'
          refine ⟨?_, by simp [hmemEv], by simp [alistLookup, if_neg hkn, hlook]⟩
          simp [isCreateFor, hcount]

/-- C3: a declared network that is absent at call time (query returns the
empty identifier) receives exactly one creation call, with its declared
options, and the identifier returned by that creation is recorded in the
result map. -/
theorem claim3_absent_network_created (env : Env) (appConfig : Dev)
    (name : String) (opts0 : NetworkOpts) (newID : String) (m : List (String × String))
    (hq : env.networkIDFromName name = Except.ok "")
    (hc : env.networkCreate name opts0 = (newID, none))
    (hdecl : (name, opts0) ∈ appConfig.networks)
    (hnd : (appConfig.networks.map Prod.fst).Nodup)
    (hrun : (networksCreate env appConfig).2 = some m) :
    List.countP (isCreateFor name) (networksCreate env appConfig).1 = 1
    ∧ Event.createCall name opts0 ∈ (networksCreate env appConfig).1
    ∧ alistLookup m name = some newID :=
  networksCreateLoop_created env name opts0 newID hq hc appConfig.networks m hdecl hnd hrun

/-- C3 witness: network `"z"` is absent remotely; the run issues exactly
one creation call `createCall "z" "optsZ"` and records the fresh id
`"z-new"`. -/
theorem claim3_witness :
    List.countP (isCreateFor "z") (networksCreate envSpec cfgAbsent).1 = 1
    ∧ Event.createCall "z" "optsZ" ∈ (networksCreate envSpec cfgAbsent).1
    ∧ alistLookup [("z", "z-new")] "z" = some "z-new" :=
  claim3_absent_network_created envSpec cfgAbsent "z" "optsZ" "z-new" [("z", "z-new")]
    rfl rfl (by decide) (by decide) (by decide)

lemma registriesLoginLoop_ok_iff (env : Env) :
    ∀ rs : List Registry, (registriesLoginLoop env rs).2 = true ↔
      ∀ r ∈ rs, (env.registryLogin r.url r.name r.password).isSome = true →
        r.continueOnFailure = true := by
  intro rs
  induction rs with
  | nil => simp [registriesLoginLoop]
  | cons r rest ih =>
    simp only [registriesLoginLoop]
    cases hl : env.registryLogin r.url r.name r.password with
    | some e =>
      simp only
      by_cases hcf : r.continueOnFailure
      · rw [if_pos hcf]
        simp [ih, hcf, hl]
      · rw [if_neg hcf]
        simp [hl, hcf]
    | none =>
      simp only
      simp [ih, hl]

lemma registriesLoginLoop_shape (env : Env) :
    ∀ rs : List Registry, ∀ e ∈ (registriesLoginLoop env rs).1,
      ∃ u n, e = Event.loginAttempt u n := by
  intro rs
  induction rs with
  | nil => simp [registriesLoginLoop]
  | cons r rest ih =>
    intro e he
    simp only [registriesLoginLoop] at he
    cases hl : env.registryLogin r.url r.name r.password with
    | some err =>
      rw [hl] at he
      simp only at he
      by_cases hcf : r.continueOnFailure
      · rw [if_pos hcf] at he
        rcases List.mem_cons.mp he with rfl | he'
        · exact ⟨r.url, r.name, rfl⟩
        · exact ih e he'
      · rw [if_neg hcf] at he
        rcases List.mem_singleton.mp he with rfl
        exact ⟨r.url, r.name, rfl⟩
    | none =>
      rw [hl] at he
      simp only at he
      rcases List.mem_cons.mp he with rfl | he'
      · exact ⟨r.url, r.name, rfl⟩
      · exact ih e he'

lemma registriesLoginLoop_complete (env : Env) :
    ∀ rs : List Registry, (registriesLoginLoop env rs).2 = true →
      (registriesLoginLoop env rs).1
        = rs.map (fun r => Event.loginAttempt r.url r.name) := by
  intro rs
  induction rs with
  | nil => simp [registriesLoginLoop]
  | cons r rest ih =>
    intro hok
    simp only [registriesLoginLoop] at hok ⊢
    cases hl : env.registryLogin r.url r.name r.password with
    | some e =>
      rw [hl] at hok
      simp only at hok ⊢
      by_cases hcf : r.continueOnFailure
      · rw [if_pos hcf] at hok ⊢
        simp only [List.map_cons, List.cons.injEq]
        exact ⟨trivial, ih (by simpa using hok)⟩
      · rw [if_neg hcf] at hok
        simp at hok
    | none =>
      rw [hl] at hok
      simp only at hok ⊢
      simp only [List.map_cons, List.cons.injEq]
      exact ⟨trivial, ih (by simpa using hok)⟩

lemma up_aborts_at_login (env : Env) (appConfig : Dev) (project : Project)
    (tailLogs : Bool) (h : (registriesLogin env appConfig).2 = false) :
    Up env appConfig project tailLogs = ((registriesLogin env appConfig).1, false) := by
  simp [Up, h]

/-- C6: registry login failure is tolerated exactly for registries marked
continue-on-failure: the login stage succeeds iff every failing registry
is so marked (and then every registry is attempted, in order); a
non-tolerated failure makes the whole run abort with a trace of login
attempts only — no network or container operation is ever issued. -/
theorem claim6_login_failure_policy (env : Env) (appConfig : Dev) (project : Project)
    (tailLogs : Bool) :
    ((registriesLogin env appConfig).2 = true ↔
        ∀ r ∈ appConfig.registries,
          (env.registryLogin r.url r.name r.password).isSome = true →
            r.continueOnFailure = true)
    ∧ ((registriesLogin env appConfig).2 = true →
        (registriesLogin env appConfig).1
          = appConfig.registries.map (fun r => Event.loginAttempt r.url r.name))
    ∧ ((registriesLogin env appConfig).2 = false →
        Up env appConfig project tailLogs = ((registriesLogin env appConfig).1, false)
        ∧ ∀ e ∈ (Up env appConfig project tailLogs).1, Event.isLogin e = true) := by
  refine ⟨registriesLoginLoop_ok_iff env appConfig.registries,
    registriesLoginLoop_complete env appConfig.registries, fun h => ⟨?_, ?_⟩⟩
  · exact up_aborts_at_login env appConfig project tailLogs h
  · intro e he
    rw [up_aborts_at_login env appConfig project tailLogs h] at he
    obtain ⟨u, n, rfl⟩ := registriesLoginLoop_shape env appConfig.registries e he
    rfl

/-- C6 witness: under an environment where every login fails, the
tolerant registry leaves the run alive, while the non-tolerant registry
makes `Up` abort right after its login attempt. -/
theorem claim6_witness :
    (registriesLogin envLoginFail cfgW).2 = true
    ∧ Up envLoginFail cfgFatalReg projW true
        = ([Event.loginAttempt "u2" "r2"], false) := by
  refine ⟨(claim6_login_failure_policy envLoginFail cfgW projW true).1.mpr (by decide), ?_⟩
  have h := ((claim6_login_failure_policy envLoginFail cfgFatalReg projW true).2.2
    (by decide)).1
  rw [h]
  decide

lemma networksCreateLoop_shape (env : Env) :
    ∀ ns : List (String × NetworkOpts), ∀ e ∈ (networksCreateLoop env ns).1,
      Event.isNetworkOp e = true := by
  intro ns
  induction ns with
  | nil => simp [networksCreateLoop]
  | cons p rest ih =>
    intro e he
    obtain ⟨name, opts⟩ := p
    simp only [networksCreateLoop] at he
    cases hq : env.networkIDFromName name with
    | error err =>
      rw [hq] at he
      simp at he
      subst he
      rfl
    | ok nid =>
      rw [hq] at he
      simp only at he
      by_cases hempty : nid = ""
      · rw [if_pos hempty] at he
        cases hc : env.networkCreate name opts with
        | mk newID errOpt =>
          rw [hc] at he
          cases errOpt with
          | some err =>
            rcases List.mem_cons.mp he with rfl | he'
            · rfl
            · rcases List.mem_singleton.mp he' with rfl
              rfl
          | none =>
            rcases List.mem_cons.mp he with rfl | he'
            · rfl
            · rcases List.mem_cons.mp he' with rfl | he''
              · rfl
              · exact ih e he''
      · rw [if_neg hempty] at he
        rcases List.mem_cons.mp he with rfl | he'
        · rfl
        · exact ih e he'

lemma cnsmLoop_shape (env : Env) (dir : String) (idMap : List (String × String)) :
    ∀ (fs : List String) (m : List (String × List String)),
      ∀ e ∈ (createNetworkServiceMapLoop env dir idMap m fs).1,
        ∃ d f, e = Event.parseCall d f := by
  intro fs
  induction fs with
  | nil => simp [createNetworkServiceMapLoop]
  | cons f fs ih =>
    intro m e he
    simp only [createNetworkServiceMapLoop] at he
    cases hp : env.composeParse dir f with
    | error err =>
      rw [hp] at he
      simp at he
      subst he
      exact ⟨dir, f, rfl⟩
    | ok composeConfig =>
      rw [hp] at he
      simp only at he
      rcases List.mem_cons.mp he with rfl | he'
      · exact ⟨dir, f, rfl⟩
      · exact ih _ e he'

lemma removeLoop_shape (env : Env) (idMap : List (String × String)) :
    ∀ m, ∀ e ∈ (removeLoop env idMap m).1,
      ∃ p ∈ m, e = Event.removeCall p.1 ((alistLookup idMap p.1).getD "") p.2 := by
  intro m
  induction m with
  | nil => simp [removeLoop]
  | cons p rest ih =>
    intro e he
    obtain ⟨networkName, services⟩ := p
    simp only [removeLoop] at he
    cases hrm : env.removeContainerIfRequired networkName
        ((alistLookup idMap networkName).getD "") services with
    | some err =>
      rw [hrm] at he
      simp at he
      subst he
      exact ⟨(networkName, services), by simp, rfl⟩
    | none =>
      rw [hrm] at he
      simp only at he
      rcases List.mem_cons.mp he with rfl | he'
      · exact ⟨(networkName, services), by simp, rfl⟩
      · obtain ⟨q, hq, rfl⟩ := ih e he'
        exact ⟨q, by simp [hq], rfl⟩

lemma verify_eq_cases (env : Env) (project : Project) (idMap : List (String × String)) :
    (idMap.isEmpty = true ∧ verifyContainerConfig env project idMap = ([], true))
    ∨ (idMap.isEmpty = false ∧ (createNetworkServiceMap env project idMap).2 = none
        ∧ verifyContainerConfig env project idMap
            = ((createNetworkServiceMap env project idMap).1, false))
    ∨ (∃ m, idMap.isEmpty = false ∧ (createNetworkServiceMap env project idMap).2 = some m
        ∧ verifyContainerConfig env project idMap
            = ((createNetworkServiceMap env project idMap).1 ++ (removeLoop env idMap m).1,
               (removeLoop env idMap m).2)) := by
  cases hemp : idMap.isEmpty with
  | true => exact Or.inl ⟨rfl, by simp [verifyContainerConfig, hemp]⟩
  | false =>
    cases hm : (createNetworkServiceMap env project idMap).2 with
    | none => exact Or.inr (Or.inl ⟨rfl, rfl, by simp [verifyContainerConfig, hemp, hm]⟩)
    | some m =>
      exact Or.inr (Or.inr ⟨m, rfl, rfl, by simp [verifyContainerConfig, hemp, hm]⟩)

lemma verify_shape (env : Env) (project : Project) (idMap : List (String × String)) :
    ∀ e ∈ (verifyContainerConfig env project idMap).1, Event.isReconcileOp e = true := by
  rcases verify_eq_cases env project idMap with ⟨_, hv⟩ | ⟨_, _, hv⟩ | ⟨m, _, _, hv⟩ <;>
    rw [hv] <;> intro e he
  · simp at he
  · obtain ⟨d, f, rfl⟩ := cnsmLoop_shape env project.directory idMap
      project.dockerComposeFilenames [] e he
    rfl
  · rcases List.mem_append.mp he with he' | he'
    · obtain ⟨d, f, rfl⟩ := cnsmLoop_shape env project.directory idMap
        project.dockerComposeFilenames [] e he'
      rfl
    · obtain ⟨q, _, rfl⟩ := removeLoop_shape env idMap m e he'
      rfl

lemma up_run_cases (env : Env) (appConfig : Dev) (project : Project) (tailLogs : Bool) :
    ((registriesLogin env appConfig).2 = false
       ∧ Up env appConfig project tailLogs = ((registriesLogin env appConfig).1, false))
    ∨ ((registriesLogin env appConfig).2 = true ∧ (networksCreate env appConfig).2 = none
       ∧ Up env appConfig project tailLogs
           = ((registriesLogin env appConfig).1 ++ (networksCreate env appConfig).1, false))
    ∨ (∃ idMap, (registriesLogin env appConfig).2 = true
        ∧ (networksCreate env appConfig).2 = some idMap
        ∧ (((verifyContainerConfig env project idMap).2 = false
             ∧ Up env appConfig project tailLogs
                 = ((registriesLogin env appConfig).1 ++ (networksCreate env appConfig).1
                     ++ (verifyContainerConfig env project idMap).1, false))
           ∨ ((verifyContainerConfig env project idMap).2 = true
             ∧ Up env appConfig project tailLogs
                 = ((registriesLogin env appConfig).1 ++ (networksCreate env appConfig).1
                     ++ (verifyContainerConfig env project idMap).1
                     ++ (runDockerCompose appConfig.imagePfx "up"
                           project.dockerComposeFilenames ["-d"]
                         :: (if tailLogs then
                               [runDockerCompose appConfig.imagePfx "logs"
                                 project.dockerComposeFilenames ["-f", project.name]]
                             else [])), true)))) := by
  cases hl : (registriesLogin env appConfig).2 with
  | false => exact Or.inl ⟨rfl, by simp [Up, hl]⟩
  | true =>
    cases hn : (networksCreate env appConfig).2 with
    | none => exact Or.inr (Or.inl ⟨rfl, rfl, by simp [Up, hl, hn]⟩)
    | some idMap =>
      cases hv : (verifyContainerConfig env project idMap).2 with
      | false =>
        exact Or.inr (Or.inr ⟨idMap, rfl, rfl, Or.inl ⟨hv, by simp [Up, hl, hn, hv]⟩⟩)
      | true =>
        refine Or.inr (Or.inr ⟨idMap, rfl, rfl, Or.inr ⟨hv, ?_⟩⟩)
        cases tailLogs <;> simp [Up, hl, hn, hv, List.append_assoc]

/-- C7: every run of `Up` executes the stages in the fixed order login,
network ensure, reconciliation, compose up, optional log tail: its trace
decomposes into consecutive homogeneous segments in that order; a fatal
failure at any stage before compose up halts the sequence there, so
every later stage's segment is empty (a login failure leaves the network
and reconcile segments empty, a network failure leaves the reconcile
segment empty, and in all failure cases the compose segment is empty);
on success the final segment is exactly one compose `up` invocation
followed by the log tail iff requested. -/
theorem claim7_stage_order (env : Env) (appConfig : Dev) (project : Project)
    (tailLogs : Bool) (evs : List Event) (ok : Bool)
    (h : Up env appConfig project tailLogs = (evs, ok)) :
    ∃ L N R F, evs = L ++ N ++ R ++ F
      ∧ (∀ e ∈ L, Event.isLogin e = true)
      ∧ (∀ e ∈ N, Event.isNetworkOp e = true)
      ∧ (∀ e ∈ R, Event.isReconcileOp e = true)
      ∧ (ok = false → F = []
          ∧ (((registriesLogin env appConfig).2 = false ∧ N = [] ∧ R = [])
             ∨ ((registriesLogin env appConfig).2 = true
                 ∧ (networksCreate env appConfig).2 = none ∧ R = [])
             ∨ ((registriesLogin env appConfig).2 = true
                 ∧ ∃ idMap, (networksCreate env appConfig).2 = some idMap
                     ∧ (verifyContainerConfig env project idMap).2 = false)))
      ∧ (ok = true → F =
          runDockerCompose appConfig.imagePfx "up" project.dockerComposeFilenames ["-d"]
            :: (if tailLogs then
                  [runDockerCompose appConfig.imagePfx "logs"
                    project.dockerComposeFilenames ["-f", project.name]]
                else [])) := by
  have hlog : ∀ e ∈ (registriesLogin env appConfig).1, Event.isLogin e = true := by
    intro e he
    obtain ⟨u, n, rfl⟩ := registriesLoginLoop_shape env appConfig.registries e he
    rfl
  have hnet : ∀ e ∈ (networksCreate env appConfig).1, Event.isNetworkOp e = true :=
    networksCreateLoop_shape env appConfig.networks
  rcases up_run_cases env appConfig project tailLogs with
    ⟨hl, hup⟩ | ⟨hl, hn, hup⟩ | ⟨idMap, hl, hn, ⟨hv, hup⟩ | ⟨hv, hup⟩⟩ <;>
    rw [hup] at h <;> injection h with h1 h2 <;> subst h1 <;> subst h2
  · exact ⟨(registriesLogin env appConfig).1, [], [], [],
      by simp, hlog, by simp, by simp,
      fun _ => ⟨rfl, Or.inl ⟨hl, rfl, rfl⟩⟩, by simp⟩
  · exact ⟨(registriesLogin env appConfig).1, (networksCreate env appConfig).1, [], [],
      by simp, hlog, hnet, by simp,
      fun _ => ⟨rfl, Or.inr (Or.inl ⟨hl, hn, rfl⟩)⟩, by simp⟩
  · exact ⟨(registriesLogin env appConfig).1, (networksCreate env appConfig).1,
      (verifyContainerConfig env project idMap).1, [],
      by simp, hlog, hnet, verify_shape env project idMap,
      fun _ => ⟨rfl, Or.inr (Or.inr ⟨hl, idMap, hn, hv⟩)⟩, by simp⟩
  · exact ⟨(registriesLogin env appConfig).1, (networksCreate env appConfig).1,
      (verifyContainerConfig env project idMap).1, _,
      rfl, hlog, hnet, verify_shape env project idMap, by simp, fun _ => rfl⟩

/-- C7 witness: a successful end-to-end run of `Up` with log tailing
decomposes into login, network, reconciliation segments followed by the
compose `up` and `logs` invocations, with the failure clause (segments
after a fatal stage empty) available vacuously. -/
theorem claim7_witness :
    ∃ L N R F, (Up envSpec cfgW projW true).1 = L ++ N ++ R ++ F
      ∧ (∀ e ∈ L, Event.isLogin e = true)
      ∧ (∀ e ∈ N, Event.isNetworkOp e = true)
      ∧ (∀ e ∈ R, Event.isReconcileOp e = true)
      ∧ ((Up envSpec cfgW projW true).2 = false → F = []
          ∧ (((registriesLogin envSpec cfgW).2 = false ∧ N = [] ∧ R = [])
             ∨ ((registriesLogin envSpec cfgW).2 = true
                 ∧ (networksCreate envSpec cfgW).2 = none ∧ R = [])
             ∨ ((registriesLogin envSpec cfgW).2 = true
                 ∧ ∃ idMap, (networksCreate envSpec cfgW).2 = some idMap
                     ∧ (verifyContainerConfig envSpec projW idMap).2 = false)))
      ∧ ((Up envSpec cfgW projW true).2 = true → F =
          runDockerCompose cfgW.imagePfx "up" projW.dockerComposeFilenames ["-d"]
            :: (if true then
                  [runDockerCompose cfgW.imagePfx "logs"
                    projW.dockerComposeFilenames ["-f", projW.name]]
                else [])) :=
  claim7_stage_order envSpec cfgW projW true
    (Up envSpec cfgW projW true).1 (Up envSpec cfgW projW true).2 rfl

lemma removeLoop_ok_iff (env : Env) (idMap : List (String × String)) :
    ∀ m : List (String × List String), (removeLoop env idMap m).2 = true ↔
      ∀ p ∈ m, env.removeContainerIfRequired p.1 ((alistLookup idMap p.1).getD "") p.2
        = none := by
  intro m
  induction m with
  | nil => simp [removeLoop]
  | cons p rest ih =>
    obtain ⟨networkName, services⟩ := p
    simp only [removeLoop]
    cases hrm : env.removeContainerIfRequired networkName
        ((alistLookup idMap networkName).getD "") services with
    | some err =>
      simp only
      constructor
      · intro hfalse
        simp at hfalse
      · intro hall
        have := hall (networkName, services) (List.mem_cons_self _ _)
        rw [hrm] at this
        cases this
    | none =>
      simp only
      constructor
      · intro hok q hq
        rcases List.mem_cons.mp hq with rfl | hq'
        · exact hrm
        · exact (ih.mp hok) q hq'
      · intro hall
        exact ih.mpr (fun q hq => hall q (List.mem_cons_of_mem _ hq))

lemma removeLoop_all_ok (env : Env) (idMap : List (String × String)) :
    ∀ m : List (String × List String),
      (∀ p ∈ m, env.removeContainerIfRequired p.1
          ((alistLookup idMap p.1).getD "") p.2 = none) →
      removeLoop env idMap m
        = (m.map (fun p => Event.removeCall p.1 ((alistLookup idMap p.1).getD "") p.2),
           true) := by
  intro m
  induction m with
  | nil => simp [removeLoop]
  | cons p rest ih =>
    intro hall
    obtain ⟨networkName, services⟩ := p
    have hhd : env.removeContainerIfRequired networkName
        ((alistLookup idMap networkName).getD "") services = none :=
      hall (networkName, services) (List.mem_cons_self _ _)
    have htl := ih (fun q hq => hall q (List.mem_cons_of_mem _ hq))
    simp only [removeLoop]
    rw [hhd]
    simp [htl]

/-- C8: in `verifyContainerConfig` (with a non-empty identity map and a
successful compose parse yielding map `m`): the run succeeds iff every
removal succeeds (any removal failure aborts); when all removals succeed
the removal instructions issued are exactly one per entry of `m` — each
with the network's current identifier and its dependent service list —
and since the keys of `m` are distinct, each dependent network receives
exactly one instruction; a network with no dependent services (not a key
of `m`) receives none. -/
theorem claim8_one_removal_per_dependent_network (env : Env) (project : Project)
    (networkIDMap : List (String × String)) (m : List (String × List String))
    (hne : networkIDMap ≠ [])
    (hm : (createNetworkServiceMap env project networkIDMap).2 = some m) :
    ((verifyContainerConfig env project networkIDMap).2 = true ↔
        ∀ p ∈ m, env.removeContainerIfRequired p.1
          ((alistLookup networkIDMap p.1).getD "") p.2 = none)
    ∧ ((∀ p ∈ m, env.removeContainerIfRequired p.1
          ((alistLookup networkIDMap p.1).getD "") p.2 = none) →
        (verifyContainerConfig env project networkIDMap).1.filter Event.isRemove
          = m.map (fun p => Event.removeCall p.1
              ((alistLookup networkIDMap p.1).getD "") p.2))
    ∧ (∀ n nid svcs,
        Event.removeCall n nid svcs ∈ (verifyContainerConfig env project networkIDMap).1 →
          n ∈ m.map Prod.fst)
    ∧ (m.map Prod.fst).Nodup := by
  have hemp : networkIDMap.isEmpty = false := by
    cases networkIDMap with
    | nil => exact absurd rfl hne
    | cons p rest => rfl
  have hv : verifyContainerConfig env project networkIDMap
      = ((createNetworkServiceMap env project networkIDMap).1
          ++ (removeLoop env networkIDMap m).1,
         (removeLoop env networkIDMap m).2) := by
    simp [verifyContainerConfig, hemp, hm]
  have hparse : ∀ e ∈ (createNetworkServiceMap env project networkIDMap).1,
      ∃ d f, e = Event.parseCall d f :=
    cnsmLoop_shape env project.directory networkIDMap project.dockerComposeFilenames []
  refine ⟨?_, ?_, ?_, cnsm_keys_nodup env project networkIDMap m hm⟩
  · rw [hv]
    exact removeLoop_ok_iff env networkIDMap m
  · intro hall
    rw [hv]
    simp only [List.filter_append]
    have h1 : (createNetworkServiceMap env project networkIDMap).1.filter Event.isRemove
        = [] := by
      rw [List.filter_eq_nil_iff]
      intro e he
      obtain ⟨d, f, rfl⟩ := hparse e he
      simp [Event.isRemove]
    have h2 := removeLoop_all_ok env networkIDMap m hall
    rw [h1, h2]
    simp only [List.nil_append]
    rw [List.filter_eq_self]
    intro e he
    obtain ⟨p, hp, rfl⟩ := List.mem_map.mp he
    rfl
  · intro n nid svcs hmem
    rw [hv] at hmem
    rcases List.mem_append.mp hmem with h' | h'
    · obtain ⟨d, f, heq⟩ := hparse _ h'
      cases heq
    · obtain ⟨p, hp, heq⟩ := removeLoop_shape env networkIDMap m _ h'
      obtain ⟨rfl, -, -⟩ : n = p.1 ∧ nid = (alistLookup networkIDMap p.1).getD ""
          ∧ svcs = p.2 := by
        cases heq
        exact ⟨rfl, rfl, rfl⟩
      exact List.mem_map_of_mem Prod.fst hp

/-- C8 witness: one declared network `"x"` (id `"id1"`) with dependent
service `A`: the reconciliation succeeds and issues exactly the single
removal instruction `removeCall "x" "id1" ["A"]`. -/
theorem claim8_witness :
    (verifyContainerConfig envSpec projW [("x", "id1")]).2 = true
    ∧ (verifyContainerConfig envSpec projW [("x", "id1")]).1.filter Event.isRemove
        = [Event.removeCall "x" "id1" ["A"]] := by
  have h := claim8_one_removal_per_dependent_network envSpec projW [("x", "id1")]
    [("x", ["A"])] (by decide) (by decide)
  refine ⟨h.1.mpr (by decide), ?_⟩
  rw [h.2.1 (by decide)]
  decide

/-! Counting lemmas for the no-retry property. -/

lemma countP_registry_le_one (url name : String) :
    ∀ rs : List Registry, (rs.map (fun r => (r.url, r.name))).Nodup →
      List.countP (fun r => r.url == url && r.name == name) rs ≤ 1 := by
  intro rs
  induction rs with
  | nil => simp
  | cons r rest ih =>
    intro hnd
    simp only [List.map_cons, List.nodup_cons] at hnd
    obtain ⟨hnotin, htail⟩ := hnd
    rw [List.countP_cons]
    by_cases hr : (r.url == url && r.name == name) = true
    · have hzero : List.countP (fun q : Registry => q.url == url && q.name == name) rest
          = 0 := by
        rw [List.countP_eq_zero]
        intro q hq hcontra
        simp only [Bool.and_eq_true, beq_iff_eq] at hr hcontra
        exact hnotin (by
          rw [List.mem_map]
          exact ⟨q, hq, by rw [hcontra.1, hcontra.2, hr.1, hr.2]⟩)
      simp [hr, hzero]
    · simp only [Bool.not_eq_true] at hr
      simp [hr]
      exact le_trans (ih htail) (by omega)

lemma countP_key_le_one {α : Type} (name : String) :
    ∀ l : List (String × α), (l.map Prod.fst).Nodup →
      List.countP (fun p => p.1 == name) l ≤ 1 := by
  intro l
  induction l with
  | nil => simp
  | cons p rest ih =>
    intro hnd
    simp only [List.map_cons, List.nodup_cons] at hnd
    obtain ⟨hnotin, htail⟩ := hnd
    rw [List.countP_cons]
    by_cases hp : (p.1 == name) = true
    · have hzero : List.countP (fun q : String × α => q.1 == name) rest = 0 := by
        rw [List.countP_eq_zero]
        intro q hq hcontra
        simp only [beq_iff_eq] at hp hcontra
        exact hnotin (by
          rw [List.mem_map]
          exact ⟨q, hq, by rw [hcontra, hp]⟩)
      simp [hp, hzero]
    · simp only [Bool.not_eq_true] at hp
      simp [hp]
      exact le_trans (ih htail) (by omega)

lemma countP_str_le_one (x : String) :
    ∀ l : List String, l.Nodup →
      List.countP (fun y => y == x) l ≤ 1 := by
  intro l
  induction l with
  | nil => simp
  | cons y rest ih =>
    intro hnd
    simp only [List.nodup_cons] at hnd
    obtain ⟨hnotin, htail⟩ := hnd
    rw [List.countP_cons]
    by_cases hy : (y == x) = true
    · have hzero : List.countP (fun z : String => z == x) rest = 0 := by
        rw [List.countP_eq_zero]
        intro z hz hcontra
        simp only [beq_iff_eq] at hy hcontra
        exact hnotin (by rw [hy, ← hcontra]; exact hz)
      simp [hy, hzero]
    · simp only [Bool.not_eq_true] at hy
      simp [hy]
      exact le_trans (ih htail) (by omega)

lemma registriesLoginLoop_countP_le (env : Env) (url name : String) :
    ∀ rs : List Registry,
      List.countP (isLoginFor url name) (registriesLoginLoop env rs).1
        ≤ List.countP (fun r => r.url == url && r.name == name) rs := by
  intro rs
  induction rs with
  | nil => simp [registriesLoginLoop]
  | cons r rest ih =>
    simp only [registriesLoginLoop]
    cases hl : env.registryLogin r.url r.name r.password with
    | some e =>
      simp only
      by_cases hcf : r.continueOnFailure
      · rw [if_pos hcf]
        simp only [List.countP_cons, isLoginFor]
        omega
      · rw [if_neg hcf]
        simp only [List.countP_cons, List.countP_nil, isLoginFor]
        omega
    | none =>
      simp only [List.countP_cons, isLoginFor]
      omega

lemma networksCreateLoop_countP_query_le (env : Env) (name : String) :
    ∀ ns : List (String × NetworkOpts),
      List.countP (isQueryFor name) (networksCreateLoop env ns).1
        ≤ List.countP (fun p => p.1 == name) ns := by
  intro ns
  induction ns with
  | nil => simp [networksCreateLoop]
  | cons p rest ih =>
    obtain ⟨k, o⟩ := p
    simp only [networksCreateLoop]
    cases hq : env.networkIDFromName k with
    | error e =>
      by_cases hk : (k == name) = true <;>
        simp [List.countP_cons, isQueryFor, hk] <;> omega
    | ok nid =>
      simp only
      by_cases hempty : nid = ""
      · rw [if_pos hempty]
        cases hc : env.networkCreate k o with
        | mk newID errOpt =>
          cases errOpt with
          | some e =>
            by_cases hk : (k == name) = true <;>
              simp [List.countP_cons, isQueryFor, hk] <;> omega
          | none =>
            by_cases hk : (k == name) = true <;>
              simp [List.countP_cons, isQueryFor, hk] <;> omega
      · rw [if_neg hempty]
        by_cases hk : (k == name) = true <;>
          simp [List.countP_cons, isQueryFor, hk] <;> omega

lemma networksCreateLoop_countP_create_le (env : Env) (name : String) :
    ∀ ns : List (String × NetworkOpts),
      List.countP (isCreateFor name) (networksCreateLoop env ns).1
        ≤ List.countP (fun p => p.1 == name) ns := by
  intro ns
  induction ns with
  | nil => simp [networksCreateLoop]
  | cons p rest ih =>
    obtain ⟨k, o⟩ := p
    simp only [networksCreateLoop]
    cases hq : env.networkIDFromName k with
    | error e =>
      by_cases hk : (k == name) = true <;>
        simp [List.countP_cons, isCreateFor, hk] <;> omega
    | ok nid =>
      simp only
      by_cases hempty : nid = ""
      · rw [if_pos hempty]
        cases hc : env.networkCreate k o with
        | mk newID errOpt =>
          cases errOpt with
          | some e =>
            by_cases hk : (k == name) = true <;>
              simp [List.countP_cons, isCreateFor, hk] <;> omega
          | none =>
            by_cases hk : (k == name) = true <;>
              simp [List.countP_cons, isCreateFor, hk] <;> omega
      · rw [if_neg hempty]
        by_cases hk : (k == name) = true <;>
          simp [List.countP_cons, isCreateFor, hk] <;> omega

lemma cnsmLoop_countP_parse_le (env : Env) (dir : String)
    (idMap : List (String × String)) (file : String) :
    ∀ (fs : List String) (m : List (String × List String)),
      List.countP (isParseFor dir file) (createNetworkServiceMapLoop env dir idMap m fs).1
        ≤ List.countP (fun g => g == file) fs := by
  intro fs
  induction fs with
  | nil => simp [createNetworkServiceMapLoop]
  | cons f fs ih =>
    intro m
    simp only [createNetworkServiceMapLoop]
    cases hp : env.composeParse dir f with
    | error e =>
      by_cases hk : (f == file) = true <;>
        simp [List.countP_cons, isParseFor, hk] <;> omega
    | ok composeConfig =>
      have hih := ih (addServices idMap m composeConfig.services)
      by_cases hk : (f == file) = true <;>
        simp [List.countP_cons, isParseFor, hk] <;> omega

lemma removeLoop_countP_le (env : Env) (idMap : List (String × String)) (name : String) :
    ∀ m : List (String × List String),
      List.countP (isRemoveFor name) (removeLoop env idMap m).1
        ≤ List.countP (fun p => p.1 == name) m := by
  intro m
  induction m with
  | nil => simp [removeLoop]
  | cons p rest ih =>
    obtain ⟨networkName, services⟩ := p
    simp only [removeLoop]
    cases hrm : env.removeContainerIfRequired networkName
        ((alistLookup idMap networkName).getD "") services with
    | some e =>
      by_cases hk : (networkName == name) = true <;>
        simp [List.countP_cons, isRemoveFor, hk] <;> omega
    | none =>
      by_cases hk : (networkName == name) = true <;>
        simp [List.countP_cons, isRemoveFor, hk] <;> omega

lemma login_events_countP_zero (env : Env) (appConfig : Dev) (p : Event → Bool)
    (hp : ∀ u n, p (Event.loginAttempt u n) = false) :
    List.countP p (registriesLogin env appConfig).1 = 0 := by
  rw [List.countP_eq_zero]
  intro e he
  obtain ⟨u, n, rfl⟩ := registriesLoginLoop_shape env appConfig.registries e he
  simp [hp]

lemma network_events_countP_zero (env : Env) (appConfig : Dev) (p : Event → Bool)
    (hq : ∀ n, p (Event.existQuery n) = false)
    (hc : ∀ n o, p (Event.createCall n o) = false) :
    List.countP p (networksCreate env appConfig).1 = 0 := by
  rw [List.countP_eq_zero]
  intro e he
  have hshape := networksCreateLoop_shape env appConfig.networks e he
  cases e with
  | existQuery n => simp [hq]
  | createCall n o => simp [hc]
  | loginAttempt u n => simp [Event.isNetworkOp] at hshape
  | parseCall d f => simp [Event.isNetworkOp] at hshape
  | removeCall n i s => simp [Event.isNetworkOp] at hshape
  | composeRun a b c d => simp [Event.isNetworkOp] at hshape

lemma verify_events_countP_zero (env : Env) (project : Project)
    (idMap : List (String × String)) (p : Event → Bool)
    (hpa : ∀ d f, p (Event.parseCall d f) = false)
    (hre : ∀ n i s, p (Event.removeCall n i s) = false) :
    List.countP p (verifyContainerConfig env project idMap).1 = 0 := by
  rw [List.countP_eq_zero]
  intro e he
  have hshape := verify_shape env project idMap e he
  cases e with
  | parseCall d f => simp [hpa]
  | removeCall n i s => simp [hre]
  | loginAttempt u n => simp [Event.isReconcileOp] at hshape
  | existQuery n => simp [Event.isReconcileOp] at hshape
  | createCall n o => simp [Event.isReconcileOp] at hshape
  | composeRun a b c d => simp [Event.isReconcileOp] at hshape

lemma verify_countP_parse_le (env : Env) (project : Project)
    (idMap : List (String × String)) (file : String) :
    List.countP (isParseFor project.directory file)
        (verifyContainerConfig env project idMap).1
      ≤ List.countP (fun g => g == file) project.dockerComposeFilenames := by
  rcases verify_eq_cases env project idMap with ⟨_, hv⟩ | ⟨_, _, hv⟩ | ⟨m, _, _, hv⟩ <;>
    rw [hv]
  · simp
  · exact cnsmLoop_countP_parse_le env project.directory idMap file
      project.dockerComposeFilenames []
  · simp only [List.countP_append]
    have h2 : List.countP (isParseFor project.directory file)
        (removeLoop env idMap m).1 = 0 := by
      rw [List.countP_eq_zero]
      intro e he
      obtain ⟨q, _, rfl⟩ := removeLoop_shape env idMap m e he
      simp [isParseFor]
    rw [h2]
    have h1 : List.countP (isParseFor project.directory file)
        (createNetworkServiceMap env project idMap).1
          ≤ List.countP (fun g => g == file) project.dockerComposeFilenames :=
      cnsmLoop_countP_parse_le env project.directory idMap file
        project.dockerComposeFilenames []
    omega

lemma verify_countP_remove_le_one (env : Env) (project : Project)
    (idMap : List (String × String)) (name : String) :
    List.countP (isRemoveFor name) (verifyContainerConfig env project idMap).1 ≤ 1 := by
  rcases verify_eq_cases env project idMap with ⟨_, hv⟩ | ⟨_, _, hv⟩ | ⟨m, _, hm, hv⟩ <;>
    rw [hv]
  · simp
  · rw [show List.countP (isRemoveFor name)
          (createNetworkServiceMap env project idMap).1 = 0 from ?_]
    · exact Nat.zero_le 1
    · rw [List.countP_eq_zero]
      intro e he
      obtain ⟨d, f, rfl⟩ := cnsmLoop_shape env project.directory idMap
        project.dockerComposeFilenames [] e he
      simp [isRemoveFor]
  · simp only [List.countP_append]
    have h1 : List.countP (isRemoveFor name)
        (createNetworkServiceMap env project idMap).1 = 0 := by
      rw [List.countP_eq_zero]
      intro e he
      obtain ⟨d, f, rfl⟩ := cnsmLoop_shape env project.directory idMap
        project.dockerComposeFilenames [] e he
      simp [isRemoveFor]
    have h2 := le_trans (removeLoop_countP_le env idMap name m)
      (countP_key_le_one name m (cnsm_keys_nodup env project idMap m hm))
    omega

lemma up_countP_le (env : Env) (appConfig : Dev) (project : Project) (tailLogs : Bool)
    (p : Event → Bool) (bL bN bV : Nat)
    (hL : List.countP p (registriesLogin env appConfig).1 ≤ bL)
    (hN : List.countP p (networksCreate env appConfig).1 ≤ bN)
    (hV : ∀ idMap, (networksCreate env appConfig).2 = some idMap →
        List.countP p (verifyContainerConfig env project idMap).1 ≤ bV)
    (hFup : p (runDockerCompose appConfig.imagePfx "up"
        project.dockerComposeFilenames ["-d"]) = false)
    (hFlogs : p (runDockerCompose appConfig.imagePfx "logs"
        project.dockerComposeFilenames ["-f", project.name]) = false) :
    List.countP p (Up env appConfig project tailLogs).1 ≤ bL + bN + bV := by
  rcases up_run_cases env appConfig project tailLogs with
    ⟨hl, hup⟩ | ⟨hl, hn, hup⟩ | ⟨idMap, hl, hn, ⟨hv, hup⟩ | ⟨hv, hup⟩⟩ <;>
    rw [show (Up env appConfig project tailLogs).1 = _ from congrArg Prod.fst hup]
  · simp only
    omega
  · simp only [List.countP_append]
    omega
  · simp only [List.countP_append]
    have := hV idMap hn
    omega
  · simp only [List.countP_append, List.countP_cons]
    have := hV idMap hn
    have hlast : List.countP p
        (if tailLogs then
          [runDockerCompose appConfig.imagePfx "logs"
            project.dockerComposeFilenames ["-f", project.name]]
         else []) = 0 := by
      cases tailLogs <;> simp [hFlogs]
    rw [hFup, hlast]
    simp only [Bool.false_eq_true, if_false]
    omega

/-- C9: no external call is retried: in any single run of `Up`, each
declared registry receives at most one login attempt, each declared
network at most one existence query, at most one creation call and at
most one removal instruction, and each compose file at most one parse. -/
theorem claim9_no_retry (env : Env) (appConfig : Dev) (project : Project)
    (tailLogs : Bool)
    (hreg : (appConfig.registries.map (fun r => (r.url, r.name))).Nodup)
    (hnet : (appConfig.networks.map Prod.fst).Nodup)
    (hfiles : project.dockerComposeFilenames.Nodup) :
    ∀ url rname name file,
      List.countP (isLoginFor url rname) (Up env appConfig project tailLogs).1 ≤ 1
      ∧ List.countP (isQueryFor name) (Up env appConfig project tailLogs).1 ≤ 1
      ∧ List.countP (isCreateFor name) (Up env appConfig project tailLogs).1 ≤ 1
      ∧ List.countP (isParseFor project.directory file)
          (Up env appConfig project tailLogs).1 ≤ 1
      ∧ List.countP (isRemoveFor name) (Up env appConfig project tailLogs).1 ≤ 1 := by
  intro url rname name file
  refine ⟨?_, ?_, ?_, ?_, ?_⟩
  · have h := up_countP_le env appConfig project tailLogs (isLoginFor url rname) 1 0 0
      (le_trans (registriesLoginLoop_countP_le env url rname appConfig.registries)
        (countP_registry_le_one url rname appConfig.registries hreg))
      (le_of_eq (network_events_countP_zero env appConfig _ (fun n => rfl)
        (fun n o => rfl)))
      (fun idMap _ => le_of_eq (verify_events_countP_zero env project idMap _
        (fun d f => rfl) (fun n i s => rfl)))
      rfl rfl
    simpa using h
  · have h := up_countP_le env appConfig project tailLogs (isQueryFor name) 0 1 0
      (le_of_eq (login_events_countP_zero env appConfig _ (fun u n => rfl)))
      (le_trans (networksCreateLoop_countP_query_le env name appConfig.networks)
        (countP_key_le_one name appConfig.networks hnet))
      (fun idMap _ => le_of_eq (verify_events_countP_zero env project idMap _
        (fun d f => rfl) (fun n i s => rfl)))
      rfl rfl
    simpa using h
  · have h := up_countP_le env appConfig project tailLogs (isCreateFor name) 0 1 0
      (le_of_eq (login_events_countP_zero env appConfig _ (fun u n => rfl)))
      (le_trans (networksCreateLoop_countP_create_le env name appConfig.networks)
        (countP_key_le_one name appConfig.networks hnet))
      (fun idMap _ => le_of_eq (verify_events_countP_zero env project idMap _
        (fun d f => rfl) (fun n i s => rfl)))
      rfl rfl
    simpa using h
  · have h := up_countP_le env appConfig project tailLogs
      (isParseFor project.directory file) 0 0 1
      (le_of_eq (login_events_countP_zero env appConfig _ (fun u n => rfl)))
      (le_of_eq (network_events_countP_zero env appConfig _ (fun n => rfl)
        (fun n o => rfl)))
      (fun idMap _ => le_trans (verify_countP_parse_le env project idMap file)
        (countP_str_le_one file project.dockerComposeFilenames hfiles))
      rfl rfl
    simpa using h
  · have h := up_countP_le env appConfig project tailLogs (isRemoveFor name) 0 0 1
      (le_of_eq (login_events_countP_zero env appConfig _ (fun u n => rfl)))
      (le_of_eq (network_events_countP_zero env appConfig _ (fun n => rfl)
        (fun n o => rfl)))
      (fun idMap _ => verify_countP_remove_le_one env project idMap name)
      rfl rfl
    simpa using h

/-- C9 witness: a concrete full run of `Up` attempts each external call
at most once. -/
theorem claim9_witness :
    List.countP (isLoginFor "u1" "r1") (Up envSpec cfgW projW true).1 ≤ 1
    ∧ List.countP (isQueryFor "x") (Up envSpec cfgW projW true).1 ≤ 1
    ∧ List.countP (isCreateFor "x") (Up envSpec cfgW projW true).1 ≤ 1
    ∧ List.countP (isParseFor projW.directory "docker-compose.yml")
        (Up envSpec cfgW projW true).1 ≤ 1
    ∧ List.countP (isRemoveFor "x") (Up envSpec cfgW projW true).1 ≤ 1 :=
  claim9_no_retry envSpec cfgW projW true (by decide) (by decide) (by decide)
    "u1" "r1" "x" "docker-compose.yml"

/-- C10: service names are not deduplicated: with two compose files each
declaring service `A` on declared network `"x"`, `A` is appended once per
occurrence, the map is `{"x": ["A", "A"]}`, and the removal instruction
carries the duplicated list. -/
theorem claim10_service_names_not_deduplicated :
    (createNetworkServiceMap envSpec projDup [("x", "id1")]).2 = some [("x", ["A", "A"])]
    ∧ Event.removeCall "x" "id1" ["A", "A"]
        ∈ (verifyContainerConfig envSpec projDup [("x", "id1")]).1 :=
  ⟨by decide, by decide⟩

end DevUp
